import Mathlib

/-!
# Course planner (ProjectTwo.cpp): shallow embedding and verified properties

The program keeps a catalog `unordered_map<string, Course>`, fills it from a
comma separated file (`loadCourses`) and prints it (`printCourseList`,
`printCourseDetails`).

Modelling choices:
* `std::string` is a sequence of characters, `Str := List Char`;
* `unordered_map<string, Course>` is a list of key/record pairs whose keys are
  pairwise distinct (`Catalog`); the order of the pairs stands for the
  unspecified iteration order of the hash table;
* a reference `Course&` into the map is modelled by the key it points to, and a
  write through the reference by `Catalog.update` at that key;
* `cout` and `cerr` are the character sequences written to them, `endl` is a
  newline character;
* an `ifstream` is `none` when the file could not be opened and otherwise the
  list of lines that successive `getline(inputFile, line)` calls deliver;
* `cin` is what the extractions deliver: the numbers read by `cin >> choice`
  and the words read by `cin >> fileName` and `cin >> courseNumber`; `int` is
  32 bits wide, and a number outside its range makes the extraction fail.
-/

namespace ProjectTwo

/-- The type `std::string`. -/
abbrev Str := List Char

/-- The struct `Course` (lines 16-20). -/
structure Course where
  number : Str
  name : Str
  prerequisites : List Str
deriving DecidableEq, Repr

/-- A default constructed `Course`: empty strings and an empty vector. -/
def Course.default : Course := { number := [], name := [], prerequisites := [] }

/-- The type `unordered_map<string, Course>`: key/record pairs with pairwise distinct keys. -/
structure Catalog where
  entries : List (Str × Course)
  nodupKeys : (entries.map Prod.fst).Nodup

namespace Catalog

/-- A default constructed (empty) map. -/
def empty : Catalog := ⟨[], List.nodup_nil⟩

/-- The keys of the map, in iteration order. -/
def keys (courses : Catalog) : List Str := courses.entries.map Prod.fst

/-- The member `courses.find(key)`: the record stored under `key`, `none` standing for `end()`. -/
def find (courses : Catalog) (key : Str) : Option Course :=
  (courses.entries.find? (fun e => decide (e.1 = key))).map Prod.snd

/-- The member `courses.empty()`. -/
def isEmpty (courses : Catalog) : Bool := courses.entries.isEmpty

/-- The insertion done by `courses[key]`: when `key` is absent a default constructed record is
added under it, otherwise the map is unchanged. The reference returned by `operator[]` is
modelled by `key` itself. -/
def index (courses : Catalog) (key : Str) : Catalog :=
  if h : courses.find key = none then
    ⟨courses.entries ++ [(key, Course.default)], by
      have hk : key ∉ courses.entries.map Prod.fst := by
        intro hmem
        obtain ⟨e, he, hek⟩ := List.mem_map.1 hmem
        have hnone : courses.entries.find? (fun e => decide (e.1 = key)) = none := by
          cases hf : courses.entries.find? (fun e => decide (e.1 = key)) with
          | none => rfl
          | some x => simp [find, hf] at h
        exact (of_decide_eq_false (by simpa using List.find?_eq_none.1 hnone e he)) hek
      rw [List.map_append]
      refine List.Nodup.append courses.nodupKeys (List.nodup_singleton _) ?_
      intro a ha hb
      rw [List.map_singleton, List.mem_singleton] at hb
      exact hk (by rw [hb] at ha; exact ha)⟩
  else courses

/-- A write through a reference to the record stored under `key`: the record is replaced by
`f` of it. -/
def update (courses : Catalog) (key : Str) (f : Course → Course) : Catalog :=
  ⟨courses.entries.map (fun e => if e.1 = key then (e.1, f e.2) else e), by
    have hfst : (courses.entries.map (fun e => if e.1 = key then (e.1, f e.2) else e)).map Prod.fst
        = courses.entries.map Prod.fst := by
      rw [List.map_map]
      refine List.map_congr_left ?_
      intro e _
      show (if e.1 = key then (e.1, f e.2) else e).1 = e.1
      split <;> rfl
    rw [hfst]
    exact courses.nodupKeys⟩

end Catalog

/-- One call `getline(ss, token, delim)` on a string stream whose unread part is `ss`: at the
end of the input nothing is extracted and the call fails (`none`); otherwise the token is the
run of characters before the first `delim` (or up to the end of the input), and the delimiter
is extracted but not stored. The result is the token and the unread rest. -/
def getline (ss : Str) (delim : Char) : Option (Str × Str) :=
  match ss with
  | [] => none
  | _ :: _ => some (ss.takeWhile (fun ch => ch != delim), (ss.dropWhile (fun ch => ch != delim)).drop 1)

/-- The loop `while (getline(ss, token, ',')) tokens.push_back(token);` (lines 137-139), with
a bound on the number of iterations. -/
def tokenLoop : Nat → Str → List Str → List Str
  | 0, _, tokens => tokens
  | fuel + 1, ss, tokens =>
    match getline ss ',' with
    | none => tokens
    | some (token, rest) => tokenLoop fuel rest (tokens ++ [token])

/-- The vector `tokens` built from `line` (lines 132-139). Every successful `getline` extracts
at least one character, so `line.length + 1` iterations are enough (`tokenLoop_fuel`). -/
def splitLine (line : Str) : List Str := tokenLoop (line.length + 1) line []

/-- The body of the prerequisite loop (lines 154-162) for the course stored under
`courseNumber`: the prerequisite is appended to the course's vector and, when it is not a key
of the map, a record with only its number set is stored under it. -/
def addPrerequisite (courseNumber : Str) (courses : Catalog) (prerequisite : Str) : Catalog :=
  let courses := courses.update courseNumber
    (fun course => { course with prerequisites := course.prerequisites ++ [prerequisite] })
  if courses.find prerequisite = none then
    (courses.index prerequisite).update prerequisite
      (fun _ => { number := prerequisite, name := [], prerequisites := [] })
  else courses

/-- Lines 146-163: the record under `tokens[0]` is created if absent, its number and name are
set, and the prerequisites `tokens[2..]` are added. -/
def addCourse (courses : Catalog) (courseNumber name : Str) (prerequisites : List Str) : Catalog :=
  let courses := courses.index courseNumber
  let courses := courses.update courseNumber
    (fun course => { course with number := courseNumber, name := name })
  prerequisites.foldl (addPrerequisite courseNumber) courses

/-- The state of `loadCourses` while it reads: the map and what was written to `cerr`. -/
structure LoadState where
  courses : Catalog
  cerr : Str

/-- The body of the reading loop (lines 128-163) for one line. -/
def readLine (st : LoadState) (line : Str) : LoadState :=
  if line = [] then st
  else
    match splitLine line with
    | courseNumber :: name :: prerequisites =>
      { st with courses := addCourse st.courses courseNumber name prerequisites }
    | _ =>
      { st with cerr := st.cerr ++ "Error: Invalid line format: ".toList ++ line ++ ['\n'] }

/-- The function `loadCourses` (lines 117-168). `inputFile` is `none` when the file cannot be
opened, otherwise the lines of the file. -/
def loadCourses (fileName : Str) (inputFile : Option (List Str)) : LoadState :=
  match inputFile with
  | none =>
    { courses := Catalog.empty,
      cerr := "Error: Cannot open file \"".toList ++ fileName ++
        "\". Check if the file exists and the path is correct.".toList ++ ['\n'] }
  | some lines => lines.foldl readLine { courses := Catalog.empty, cerr := [] }

/-- The function `courseExists` (lines 171-173). -/
def courseExists (courses : Catalog) (courseNumber : Str) : Bool :=
  (courses.find courseNumber).isSome

/-- The comparison `a < b` of `std::string`: lexicographic by character value, a proper
prefix being smaller. -/
def strLt : Str → Str → Bool
  | [], [] => false
  | [], _ :: _ => true
  | _ :: _, [] => false
  | a :: as, b :: bs => if a < b then true else if b < a then false else strLt as bs

/-- The call `sort(courseNumbers.begin(), courseNumbers.end())`: the vector rearranged so that
no element is smaller (by `strLt`) than an element before it. -/
def sortStrings (v : List Str) : List Str := List.insertionSort (fun a b => strLt b a = false) v

/-- The vector `courseNumbers` of `printCourseList` after the sort (lines 177-181). -/
def sortedCourseNumbers (courses : Catalog) : List Str := sortStrings courses.keys

/-- One iteration of the printing loop (line 185); `none` when `courses.at(number)` throws. -/
def printListLine (courses : Catalog) (out : Str) (number : Str) : Option Str :=
  match courses.find number with
  | none => none
  | some course => some (out ++ number ++ ", ".toList ++ course.name ++ ['\n'])

/-- The function `printCourseList` (lines 175-187): what it writes to `cout`, or `none` when
`courses.at` throws. -/
def printCourseList (courses : Catalog) : Option Str :=
  (sortedCourseNumbers courses).foldlM (printListLine courses) "\nCourse List:\n".toList

/-- The function `printCourseDetails` (lines 189-209): what it writes to `cout`. -/
def printCourseDetails (courses : Catalog) (courseNumber : Str) : Str :=
  match courses.find courseNumber with
  | none => "Error: Course not found.\n".toList
  | some course =>
    "\nCourse Number: ".toList ++ course.number ++ ['\n'] ++
    "Course Name: ".toList ++ course.name ++ ['\n'] ++
    (if course.prerequisites ≠ [] then
      "Prerequisites:\n".toList ++
        (course.prerequisites.map (fun prerequisite => " - ".toList ++ prerequisite ++ ['\n'])).flatten
    else "No prerequisites.\n".toList)

/-! ## The interactive shell (`main`) -/

/-- The files of the machine as `ifstream` sees them: `none` for a path that cannot be opened,
otherwise the lines of the file. -/
abbrev Files := Str → Option (List Str)

/-- The variables of `main` and the streams it uses. Standard input is held as what the
extractions deliver: `words` are the words that the successive `cin >> fileName` and
`cin >> courseNumber` read, in order; the decimal numbers that the successive `cin >> choice`
meet are handed to the loop one cycle at a time (`iteration`, `mainLoop`). Input on which
`cin >> choice` does not meet a decimal number is outside this model. -/
structure Shell where
  courses : Catalog
  fileName : Str
  choice : Int
  words : List Str
  cout : Str
  cerr : Str

/-- The ways in which the menu loop does not come back to wait for the next choice. -/
inductive Abort where
  /-- A prompt finds no word left on standard input. -/
  | noInput
  /-- The call `courses.at` throws `std::out_of_range`. -/
  | outOfRange
  /-- The extraction `cin >> choice` met a number outside the range of `int` and set failbit
  on `cin`; `last` is the state at the end of that cycle. The program never clears the flag, so
  from `last` on every `cin >> choice` fails and leaves `choice` as it is: nothing more is read
  and the loop does not end. -/
  | cinFailed (last : Shell)

/-- The largest value of `int`. -/
def intMax : Int := 2147483647

/-- The smallest value of `int`. -/
def intMin : Int := -2147483648

/-- The number `entered` is a value of `int`. -/
def fitsInt (entered : Int) : Bool := decide (intMin ≤ entered ∧ entered ≤ intMax)

/-- The value `cin >> choice` stores on the number `entered` (line 73): the number itself when
it is a value of `int`, otherwise the nearest bound of `int`. -/
def storedChoice (entered : Int) : Int :=
  if intMax < entered then intMax else if entered < intMin then intMin else entered

/-- The menu written at the start of every cycle (lines 68-72). -/
def menuText : Str :=
  "\n1. Load Data Structure.\n".toList ++ "2. Print Course List.\n".toList ++
    "3. Print Course.\n".toList ++ "9. Exit.\n".toList ++ "\nWhat would you like to do? ".toList

/-- The message of cases 2 and 3 on an empty map (lines 88 and 96). -/
def noDataText : Str := "No data loaded. Please load the data first.\n".toList

/-- The statement `switch (choice)` (lines 75-111). -/
def switchChoice (files : Files) (st : Shell) : Except Abort Shell :=
  if st.choice = 1 then
    match st.words with
    | [] => .error .noInput
    | word :: rest =>
      let loaded := loadCourses word (files word)
      .ok { st with
        fileName := word
        words := rest
        courses := loaded.courses
        cerr := st.cerr ++ loaded.cerr
        cout := st.cout ++ "Enter the file name to load: ".toList ++
          "Attempting to open file: ".toList ++ word ++ ['\n'] ++
          (if loaded.courses.isEmpty then [] else "Data loaded successfully.\n".toList) }
  else if st.choice = 2 then
    if st.courses.isEmpty then .ok { st with cout := st.cout ++ noDataText }
    else
      match printCourseList st.courses with
      | none => .error .outOfRange
      | some out => .ok { st with cout := st.cout ++ out }
  else if st.choice = 3 then
    if st.courses.isEmpty then .ok { st with cout := st.cout ++ noDataText }
    else
      match st.words with
      | [] => .error .noInput
      | word :: rest =>
        .ok { st with
          words := rest
          cout := st.cout ++ "What course do you want to know about? ".toList ++
            printCourseDetails st.courses word }
  else if st.choice = 9 then
    .ok { st with cout := st.cout ++ "Thank you for using the course planner!\n".toList }
  else
    .ok { st with cout := st.cout ++ (toString st.choice).toList ++
      " is not a valid option.\n".toList }

/-- One cycle of the menu loop (lines 67-111) on a stream without failbit: the menu is
written, `cin >> choice` meets the number `entered`, and the switch runs. A number that is a
value of `int` is stored in `choice`. For a number outside the range of `int` the nearest bound
is stored and failbit is set; the switch still runs on the stored value, and the cycle ends in
`Abort.cinFailed`. -/
def iteration (files : Files) (st : Shell) (entered : Int) : Except Abort Shell :=
  if fitsInt entered then
    switchChoice files { st with cout := st.cout ++ menuText, choice := entered }
  else
    match switchChoice files
        { st with cout := st.cout ++ menuText, choice := storedChoice entered } with
    | .ok last => .error (.cinFailed last)
    | .error e => .error e

/-- The loop `while (choice != 9)` (lines 66-112) on the numbers that the successive
`cin >> choice` meet. When they are used up before the loop has ended, the result is the state
in which the shell waits for the next choice. After a cycle that ends in `Abort.cinFailed` the
numbers that follow are never read: the result is that outcome. -/
def mainLoop (files : Files) : List Int → Shell → Except Abort Shell
  | [], st => .ok st
  | entered :: rest, st =>
    if st.choice ≠ 9 then
      match iteration files st entered with
      | .error e => .error e
      | .ok next => mainLoop files rest next
    else .ok st

/-- The state of `main` when the loop is entered (lines 57-63). -/
def initialShell (words : List Str) : Shell :=
  { courses := Catalog.empty
    fileName := []
    choice := 0
    words := words
    cout := "Welcome to the Course Planner.\n".toList ++ "CS 300 - Project Two\n".toList ++
      "Brendalis Sanchez\n".toList
    cerr := [] }

/-- The function `main` (lines 56-115). -/
def main (files : Files) (choices : List Int) (words : List Str) : Except Abort Shell :=
  mainLoop files choices (initialShell words)

/-- The shell has left the menu loop: the loop condition `choice != 9` is false. -/
def terminated (st : Shell) : Prop := st.choice = 9

instance terminatedDecidable (st : Shell) : Decidable (terminated st) :=
  inferInstanceAs (Decidable (st.choice = 9))

/-- Example files: "courses.csv" holds the two lines of the specification's example, every
other path cannot be opened. -/
def exampleFiles : Files := fun name =>
  if name = "courses.csv".toList then
    some ["CSCI100,Intro,CSCI101".toList, "CSCI101,Data Structures".toList]
  else none

/-- Example shell state: the catalog holds one course, `words` are still to be read. -/
def exampleShell (words : List Str) : Shell :=
  { initialShell words with
    courses := ⟨[("OLD1".toList, ⟨"OLD1".toList, "Old".toList, []⟩)], by decide⟩ }

/-! ## Vocabulary of the statements about the loader -/

/-- A line the loader accepts: it is not blank and the loader splits it into at least 2
fields. -/
def accepted (line : Str) : Bool := decide (line ≠ []) && decide (2 ≤ (splitLine line).length)

/-- Field `i` of a line as the loader splits it (the empty string when there is none). -/
def field (line : Str) (i : Nat) : Str := (splitLine line).getD i []

/-- The fields of a line from index 2 onward. -/
def prerequisiteFields (line : Str) : List Str := (splitLine line).drop 2

/-- The accepted lines whose field 0 is `c`, in file order. -/
def definitionsOf (lines : List Str) (c : Str) : List Str :=
  lines.filter (fun line => accepted line && decide (field line 0 = c))

/-- The identifier `p` is a prerequisite field of some accepted line. -/
def isPrerequisiteIn (lines : List Str) (p : Str) : Prop :=
  ∃ line ∈ lines, accepted line = true ∧ p ∈ prerequisiteFields line

/-- Field 1 of the last line of `defs`, the empty string when `defs` is empty. -/
def lastName (defs : List Str) : Str :=
  match defs.getLast? with
  | some line => field line 1
  | none => []


/-! ## The map operations -/

/-- Lookup in a list of key/record pairs, as done by `Catalog.find`. -/
theorem findRaw_cons (e : Str × Course) (l : List (Str × Course)) (key : Str) :
    ((e :: l).find? (fun e => decide (e.1 = key))).map Prod.snd
      = if e.1 = key then some e.2 else (l.find? (fun e => decide (e.1 = key))).map Prod.snd := by
  by_cases h : e.1 = key
  · rw [List.find?_cons_of_pos _ (by simpa using h), if_pos h]; rfl
  · rw [List.find?_cons_of_neg _ (by simpa using h), if_neg h]

theorem findRaw_append_single (l : List (Str × Course)) (key other : Str) (r : Course) :
    ((l ++ [(key, r)]).find? (fun e => decide (e.1 = other))).map Prod.snd
      = match (l.find? (fun e => decide (e.1 = other))).map Prod.snd with
        | some x => some x
        | none => if key = other then some r else none := by
  induction l with
  | nil =>
    rw [List.nil_append, findRaw_cons]
    rfl
  | cons e l ih =>
    rw [List.cons_append, findRaw_cons, findRaw_cons]
    by_cases h : e.1 = other
    · rw [if_pos h, if_pos h]
    · rw [if_neg h, if_neg h]; exact ih

theorem findRaw_map (l : List (Str × Course)) (key other : Str) (f : Course → Course) :
    ((l.map (fun e => if e.1 = key then (e.1, f e.2) else e)).find?
        (fun e => decide (e.1 = other))).map Prod.snd
      = if other = key then ((l.find? (fun e => decide (e.1 = key))).map Prod.snd).map f
        else (l.find? (fun e => decide (e.1 = other))).map Prod.snd := by
  induction l with
  | nil => simp
  | cons e l ih =>
    rw [List.map_cons, findRaw_cons, findRaw_cons, findRaw_cons, ih]
    by_cases hk : e.1 = key
    · by_cases ho : other = key
      · subst ho
        simp [hk]
      · have h1 : ¬ e.1 = other := fun h => ho (h.symm.trans hk)
        have h2 : ¬ key = other := fun h => ho h.symm
        simp [hk, ho, h2]
    · by_cases ho : other = key
      · subst ho
        simp [hk]
      · by_cases he : e.1 = other
        · simp [hk, he, ho]
        · simp [hk, he, ho]

theorem Catalog.find_empty (key : Str) : Catalog.empty.find key = none := rfl

theorem Catalog.mem_keys_iff (courses : Catalog) (key : Str) :
    key ∈ courses.keys ↔ courses.find key ≠ none := by
  obtain ⟨l, hl⟩ := courses
  unfold Catalog.keys Catalog.find
  simp only
  clear hl
  induction l with
  | nil =>
    constructor
    · intro h; cases h
    · intro h; exact absurd rfl h
  | cons e l ih =>
    rw [findRaw_cons, List.map_cons, List.mem_cons]
    by_cases h : e.1 = key
    · rw [if_pos h]
      exact ⟨fun _ => Option.some_ne_none _, fun _ => Or.inl h.symm⟩
    · have h2 : ¬ key = e.1 := fun h3 => h h3.symm
      simp only [h2, false_or, h, if_false]
      exact ih

theorem Catalog.find_index_self (courses : Catalog) (key : Str) :
    (courses.index key).find key = some ((courses.find key).getD Course.default) := by
  unfold Catalog.index
  split
  · rename_i h
    have h2 := h
    unfold Catalog.find at h2
    unfold Catalog.find
    simp only
    rw [findRaw_append_single, h2]
    simp [Catalog.find, h2]
  · rename_i h
    cases hf : courses.find key with
    | none => exact absurd hf h
    | some r => rfl

theorem Catalog.find_index_ne (courses : Catalog) (key other : Str) (hne : other ≠ key) :
    (courses.index key).find other = courses.find other := by
  unfold Catalog.index
  split
  · have h2 : ¬ key = other := fun h3 => hne h3.symm
    unfold Catalog.find
    simp only
    rw [findRaw_append_single, if_neg h2]
    cases (List.find? (fun e => decide (e.1 = other)) courses.entries).map Prod.snd <;> rfl
  · rfl

theorem Catalog.find_update (courses : Catalog) (key other : Str) (f : Course → Course) :
    (courses.update key f).find other
      = if other = key then (courses.find key).map f else courses.find other := by
  unfold Catalog.update Catalog.find
  exact findRaw_map courses.entries key other f

theorem Catalog.find_update_self (courses : Catalog) (key : Str) (f : Course → Course) :
    (courses.update key f).find key = (courses.find key).map f := by
  rw [Catalog.find_update, if_pos rfl]

theorem Catalog.find_update_ne (courses : Catalog) (key other : Str) (f : Course → Course)
    (hne : other ≠ key) : (courses.update key f).find other = courses.find other := by
  rw [Catalog.find_update, if_neg hne]

/-! ## The loader, one line at a time -/

theorem find_addPrerequisite_self (courseNumber prerequisite : Str) (courses : Catalog)
    (r : Course) (h : courses.find courseNumber = some r) :
    (addPrerequisite courseNumber courses prerequisite).find courseNumber
      = some { r with prerequisites := r.prerequisites ++ [prerequisite] } := by
  have h1 : (courses.update courseNumber (fun course =>
      { course with prerequisites := course.prerequisites ++ [prerequisite] })).find courseNumber
      = some { r with prerequisites := r.prerequisites ++ [prerequisite] } := by
    rw [Catalog.find_update_self, h]; rfl
  unfold addPrerequisite
  simp only
  split
  · rename_i hnone
    have hne : courseNumber ≠ prerequisite := by
      intro heq
      subst heq
      rw [h1] at hnone
      cases hnone
    rw [Catalog.find_update_ne _ _ _ _ hne, Catalog.find_index_ne _ _ _ hne, h1]
  · exact h1

theorem find_addPrerequisite_ne (courseNumber prerequisite other : Str) (courses : Catalog)
    (hne : other ≠ courseNumber) :
    (addPrerequisite courseNumber courses prerequisite).find other
      = match courses.find other with
        | some r => some r
        | none => if other = prerequisite then some ⟨other, [], []⟩ else none := by
  have h1 : (courses.update courseNumber (fun course =>
      { course with prerequisites := course.prerequisites ++ [prerequisite] })).find other
      = courses.find other := Catalog.find_update_ne _ _ _ _ hne
  unfold addPrerequisite
  simp only
  split
  · rename_i hnone
    by_cases hp : other = prerequisite
    · subst hp
      rw [Catalog.find_update_self, Catalog.find_index_self]
      rw [h1] at hnone
      rw [hnone]
      simp
    · rw [Catalog.find_update_ne _ _ _ _ hp, Catalog.find_index_ne _ _ _ hp, h1]
      cases courses.find other with
      | none => simp [hp]
      | some r => rfl
  · rename_i hsome
    rw [h1]
    cases hf : courses.find other with
    | some r => rfl
    | none =>
      have hp : other ≠ prerequisite := by
        intro heq
        subst heq
        exact hsome (h1.trans hf)
      simp [hp]

theorem find_foldl_addPrerequisite_self (courseNumber : Str) (prerequisites : List Str) :
    ∀ (courses : Catalog) (r : Course), courses.find courseNumber = some r →
      (prerequisites.foldl (addPrerequisite courseNumber) courses).find courseNumber
        = some { r with prerequisites := r.prerequisites ++ prerequisites } := by
  induction prerequisites with
  | nil => intro courses r h; simpa using h
  | cons p ps ih =>
    intro courses r h
    rw [List.foldl_cons, ih _ _ (find_addPrerequisite_self courseNumber p courses r h)]
    simp

theorem find_foldl_addPrerequisite_ne (courseNumber other : Str) (hne : other ≠ courseNumber)
    (prerequisites : List Str) :
    ∀ (courses : Catalog),
      (prerequisites.foldl (addPrerequisite courseNumber) courses).find other
        = match courses.find other with
          | some r => some r
          | none => if other ∈ prerequisites then some ⟨other, [], []⟩ else none := by
  induction prerequisites with
  | nil =>
    intro courses
    rw [List.foldl_nil]
    cases h : courses.find other <;> simp
  | cons p ps ih =>
    intro courses
    rw [List.foldl_cons, ih, find_addPrerequisite_ne _ _ _ _ hne]
    cases courses.find other with
    | some r => rfl
    | none =>
      by_cases hp : other = p
      · simp [hp]
      · simp [hp]

theorem find_addCourse_self (courses : Catalog) (courseNumber name : Str)
    (prerequisites : List Str) :
    (addCourse courses courseNumber name prerequisites).find courseNumber
      = some ⟨courseNumber, name,
          ((courses.find courseNumber).getD Course.default).prerequisites ++ prerequisites⟩ := by
  unfold addCourse
  simp only
  rw [find_foldl_addPrerequisite_self courseNumber prerequisites _
    ⟨courseNumber, name, ((courses.find courseNumber).getD Course.default).prerequisites⟩]
  rw [Catalog.find_update_self, Catalog.find_index_self]
  rfl

theorem find_addCourse_ne (courses : Catalog) (courseNumber name other : Str)
    (prerequisites : List Str) (hne : other ≠ courseNumber) :
    (addCourse courses courseNumber name prerequisites).find other
      = match courses.find other with
        | some r => some r
        | none => if other ∈ prerequisites then some ⟨other, [], []⟩ else none := by
  unfold addCourse
  simp only
  rw [find_foldl_addPrerequisite_ne courseNumber other hne, Catalog.find_update_ne _ _ _ _ hne,
    Catalog.find_index_ne _ _ _ hne]

/-! ## The loader on a whole file -/

theorem readLine_courses (st : LoadState) (line : Str) :
    (readLine st line).courses
      = if accepted line = true then
          addCourse st.courses (field line 0) (field line 1) (prerequisiteFields line)
        else st.courses := by
  unfold readLine accepted field prerequisiteFields
  by_cases hb : line = []
  · simp [hb]
  · rw [if_neg hb]
    cases hs : splitLine line with
    | nil => simp
    | cons a t =>
      cases t with
      | nil => simp
      | cons b ps => simp [hb]

theorem definitionsOf_append_single (lines : List Str) (x c : Str) :
    definitionsOf (lines ++ [x]) c
      = definitionsOf lines c ++ (if accepted x = true ∧ field x 0 = c then [x] else []) := by
  unfold definitionsOf
  rw [List.filter_append]
  congr 1
  by_cases h : accepted x = true ∧ field x 0 = c
  · rw [if_pos h]
    simp [List.filter_cons, h.1, h.2]
  · rw [if_neg h]
    rw [List.filter_cons, List.filter_nil, if_neg]
    simpa using h

theorem isPrerequisiteIn_append_single (lines : List Str) (x p : Str) :
    isPrerequisiteIn (lines ++ [x]) p
      ↔ isPrerequisiteIn lines p ∨ (accepted x = true ∧ p ∈ prerequisiteFields x) := by
  unfold isPrerequisiteIn
  constructor
  · rintro ⟨line, hmem, hacc, hp⟩
    rcases List.mem_append.1 hmem with h | h
    · exact Or.inl ⟨line, h, hacc, hp⟩
    · rw [List.mem_singleton] at h
      subst h
      exact Or.inr ⟨hacc, hp⟩
  · rintro (⟨line, hmem, hacc, hp⟩ | ⟨hacc, hp⟩)
    · exact ⟨line, List.mem_append_left _ hmem, hacc, hp⟩
    · exact ⟨x, List.mem_append_right _ (List.mem_singleton_self x), hacc, hp⟩

/-- The record the loader holds under `k`, in terms of the lines read so far. -/
theorem find_foldl_readLine (lines : List Str) (k : Str) :
    ((definitionsOf lines k ≠ [] ∨ isPrerequisiteIn lines k) →
      (lines.foldl readLine ⟨Catalog.empty, []⟩).courses.find k
        = some ⟨k, lastName (definitionsOf lines k),
            (definitionsOf lines k).flatMap prerequisiteFields⟩) ∧
    (¬ (definitionsOf lines k ≠ [] ∨ isPrerequisiteIn lines k) →
      (lines.foldl readLine ⟨Catalog.empty, []⟩).courses.find k = none) := by
  induction lines using List.reverseRecOn generalizing k with
  | nil =>
    refine ⟨?_, fun _ => rfl⟩
    rintro (h | ⟨line, hmem, _⟩)
    · exact absurd rfl h
    · cases hmem
  | append_singleton l x ih =>
    rw [List.foldl_append, List.foldl_cons, List.foldl_nil, readLine_courses,
      definitionsOf_append_single, isPrerequisiteIn_append_single]
    by_cases hacc : accepted x = true
    · rw [if_pos hacc]
      by_cases hk : field x 0 = k
      · subst hk
        rw [if_pos ⟨hacc, rfl⟩, find_addCourse_self]
        refine ⟨fun _ => ?_, fun h => absurd (Or.inl (by simp)) h⟩
        have hpre : (((l.foldl readLine ⟨Catalog.empty, []⟩).courses.find (field x 0)).getD
            Course.default).prerequisites
            = (definitionsOf l (field x 0)).flatMap prerequisiteFields := by
          by_cases hm : definitionsOf l (field x 0) ≠ [] ∨ isPrerequisiteIn l (field x 0)
          · rw [(ih (field x 0)).1 hm]; rfl
          · rw [(ih (field x 0)).2 hm]
            have hd : definitionsOf l (field x 0) = [] := by
              by_contra hne
              exact hm (Or.inl hne)
            rw [hd]; rfl
        rw [hpre]
        simp [lastName, List.flatMap_append]
      · have hk2 : k ≠ field x 0 := fun h => hk h.symm
        rw [if_neg (fun h => hk h.2), List.append_nil, find_addCourse_ne _ _ _ _ _ hk2]
        by_cases hm : definitionsOf l k ≠ [] ∨ isPrerequisiteIn l k
        · rw [(ih k).1 hm]
          refine ⟨fun _ => rfl, fun h => absurd ?_ h⟩
          rcases hm with h1 | h1
          · exact Or.inl h1
          · exact Or.inr (Or.inl h1)
        · rw [(ih k).2 hm]
          have hd : definitionsOf l k = [] := by
            by_contra hne
            exact hm (Or.inl hne)
          by_cases hp : k ∈ prerequisiteFields x
          · refine ⟨fun _ => ?_, fun h => absurd (Or.inr (Or.inr ⟨hacc, hp⟩)) h⟩
            simp [hp, hd, lastName]
          · refine ⟨fun h => ?_, fun _ => by simp [hp]⟩
            rcases h with h1 | h1 | h1
            · exact absurd (Or.inl h1) hm
            · exact absurd (Or.inr h1) hm
            · exact absurd h1.2 hp
    · rw [if_neg hacc, if_neg (fun h => hacc h.1), List.append_nil]
      have hiff : (definitionsOf l k ≠ [] ∨ isPrerequisiteIn l k ∨
          (accepted x = true ∧ k ∈ prerequisiteFields x))
          ↔ (definitionsOf l k ≠ [] ∨ isPrerequisiteIn l k) := by
        constructor
        · rintro (h | h | h)
          · exact Or.inl h
          · exact Or.inr h
          · exact absurd h.1 hacc
        · rintro (h | h)
          · exact Or.inl h
          · exact Or.inr (Or.inl h)
      rw [hiff]
      exact ih k


theorem Catalog.find_of_mem (courses : Catalog) (e : Str × Course) (h : e ∈ courses.entries) :
    courses.find e.1 = some e.2 := by
  obtain ⟨l, hl⟩ := courses
  unfold Catalog.find
  simp only at h ⊢
  induction l with
  | nil => cases h
  | cons x l ih =>
    rw [findRaw_cons]
    rw [List.map_cons, List.nodup_cons] at hl
    rcases List.mem_cons.1 h with h1 | h1
    · subst h1
      rw [if_pos rfl]
    · have hne : ¬ x.1 = e.1 := by
        intro heq
        exact hl.1 (heq ▸ List.mem_map_of_mem Prod.fst h1)
      rw [if_neg hne]
      exact ih hl.2 h1

theorem Catalog.mem_of_find (courses : Catalog) (key : Str) (r : Course)
    (h : courses.find key = some r) : (key, r) ∈ courses.entries := by
  unfold Catalog.find at h
  cases hf : courses.entries.find? (fun e => decide (e.1 = key)) with
  | none => rw [hf] at h; cases h
  | some e =>
    rw [hf] at h
    have hk : e.1 = key := by simpa using List.find?_some hf
    have hr : e.2 = r := by simpa using h
    have hmem := List.mem_of_find?_eq_some hf
    rw [← hk, ← hr]
    exact hmem

/-- Membership in the key list in terms of the lines of the file. -/
theorem mem_keys_foldl_readLine (lines : List Str) (k : Str) :
    k ∈ (lines.foldl readLine ⟨Catalog.empty, []⟩).courses.keys
      ↔ (definitionsOf lines k ≠ [] ∨ isPrerequisiteIn lines k) := by
  rw [Catalog.mem_keys_iff]
  constructor
  · intro h
    by_contra hm
    exact h ((find_foldl_readLine lines k).2 hm)
  · intro hm
    rw [(find_foldl_readLine lines k).1 hm]
    exact Option.some_ne_none _

theorem definitionsOf_ne_nil_iff (lines : List Str) (c : Str) :
    definitionsOf lines c ≠ [] ↔ ∃ line ∈ lines, accepted line = true ∧ field line 0 = c := by
  unfold definitionsOf
  rw [Ne, List.filter_eq_nil_iff]
  constructor
  · intro h
    by_contra hcon
    apply h
    intro line hmem hacc
    apply hcon
    simp only [Bool.and_eq_true, decide_eq_true_eq] at hacc
    exact ⟨line, hmem, hacc⟩
  · rintro ⟨line, hmem, hacc, hf⟩ h
    exact h line hmem (by simp [hacc, hf])

theorem mem_definitionsOf (lines : List Str) (c line : Str) :
    line ∈ definitionsOf lines c ↔ line ∈ lines ∧ accepted line = true ∧ field line 0 = c := by
  unfold definitionsOf
  rw [List.mem_filter]
  simp only [Bool.and_eq_true, decide_eq_true_eq]

/-! ## The claims about the loader -/

/-- C1. Prerequisite closure: in the catalog `loadCourses` returns for a list of lines, every
identifier in the prerequisite list of any record is a key of the catalog. -/
theorem C1_prerequisite_closure (fileName : Str) (lines : List Str) :
    ∀ e ∈ (loadCourses fileName (some lines)).courses.entries, ∀ p ∈ e.2.prerequisites,
      p ∈ (loadCourses fileName (some lines)).courses.keys := by
  intro e he p hp
  show p ∈ (lines.foldl readLine ⟨Catalog.empty, []⟩).courses.keys
  have hfind := Catalog.find_of_mem _ e he
  change (lines.foldl readLine ⟨Catalog.empty, []⟩).courses.find e.1 = some e.2 at hfind
  have hm : definitionsOf lines e.1 ≠ [] ∨ isPrerequisiteIn lines e.1 := by
    by_contra hm
    rw [(find_foldl_readLine lines e.1).2 hm] at hfind
    cases hfind
  rw [(find_foldl_readLine lines e.1).1 hm] at hfind
  have he2 := Option.some.inj hfind
  rw [← he2] at hp
  simp only [List.mem_flatMap] at hp
  obtain ⟨line, hline, hpl⟩ := hp
  rw [mem_definitionsOf] at hline
  rw [mem_keys_foldl_readLine]
  exact Or.inr ⟨line, hline.1, hline.2.1, hpl⟩

/-- Witness of C1 on the two-line file of the specification. -/
theorem C1_prerequisite_closure_witness :
    "CSCI101".toList ∈ (loadCourses "f.csv".toList
      (some ["CSCI100,Intro,CSCI101".toList, "CSCI101,Data Structures".toList])).courses.keys :=
  C1_prerequisite_closure "f.csv".toList
    ["CSCI100,Intro,CSCI101".toList, "CSCI101,Data Structures".toList]
    ("CSCI100".toList, ⟨"CSCI100".toList, "Intro".toList, ["CSCI101".toList]⟩) (by decide)
    "CSCI101".toList (by decide)

/-- C2. The key set of the loaded catalog is exactly the set of field-0 identifiers of the
accepted lines together with the identifiers in fields 2 and onward of those lines; the lines
"CSCI100,Intro,CSCI101" and "CSCI101,Data Structures" give exactly 2 entries. -/
theorem C2_key_set (fileName : Str) (lines : List Str) (k : Str) :
    (k ∈ (loadCourses fileName (some lines)).courses.keys
      ↔ ∃ line ∈ lines, accepted line = true ∧ (k = field line 0 ∨ k ∈ prerequisiteFields line)) ∧
    (loadCourses fileName (some ["CSCI100,Intro,CSCI101".toList,
      "CSCI101,Data Structures".toList])).courses.entries.length = 2 := by
  refine ⟨?_, (by decide : (["CSCI100,Intro,CSCI101".toList,
    "CSCI101,Data Structures".toList].foldl readLine ⟨Catalog.empty, []⟩).courses.entries.length
      = 2)⟩
  show k ∈ (lines.foldl readLine ⟨Catalog.empty, []⟩).courses.keys ↔ _
  rw [mem_keys_foldl_readLine, definitionsOf_ne_nil_iff]
  constructor
  · rintro (⟨line, hmem, hacc, hf⟩ | ⟨line, hmem, hacc, hp⟩)
    · exact ⟨line, hmem, hacc, Or.inl hf.symm⟩
    · exact ⟨line, hmem, hacc, Or.inr hp⟩
  · rintro ⟨line, hmem, hacc, hf | hp⟩
    · exact Or.inl ⟨line, hmem, hacc, hf.symm⟩
    · exact Or.inr ⟨line, hmem, hacc, hp⟩

/-- C3. The prerequisite list of every record of the loaded catalog is the concatenation, in
file order, of fields 2 and onward of every accepted line whose field 0 is the record's key;
for "CSCI100,Intro,CSCI101" the list of CSCI100 is ["CSCI101"]. -/
theorem C3_prerequisite_list (fileName : Str) (lines : List Str) (c : Str) (r : Course)
    (h : (loadCourses fileName (some lines)).courses.find c = some r) :
    r.prerequisites = (definitionsOf lines c).flatMap prerequisiteFields := by
  change (lines.foldl readLine ⟨Catalog.empty, []⟩).courses.find c = some r at h
  have hm : definitionsOf lines c ≠ [] ∨ isPrerequisiteIn lines c := by
    by_contra hm
    rw [(find_foldl_readLine lines c).2 hm] at h
    cases h
  rw [(find_foldl_readLine lines c).1 hm] at h
  rw [← Option.some.inj h]

/-- Witness of C3: the example of the specification. -/
theorem C3_prerequisite_list_witness :
    (loadCourses "f.csv".toList (some ["CSCI100,Intro,CSCI101".toList,
        "CSCI101,Data Structures".toList])).courses.find "CSCI100".toList
      = some ⟨"CSCI100".toList, "Intro".toList, ["CSCI101".toList]⟩ ∧
    (⟨"CSCI100".toList, "Intro".toList, ["CSCI101".toList]⟩ : Course).prerequisites
      = (definitionsOf ["CSCI100,Intro,CSCI101".toList, "CSCI101,Data Structures".toList]
          "CSCI100".toList).flatMap prerequisiteFields :=
  ⟨by decide, C3_prerequisite_list "f.csv".toList
    ["CSCI100,Intro,CSCI101".toList, "CSCI101,Data Structures".toList] "CSCI100".toList
    ⟨"CSCI100".toList, "Intro".toList, ["CSCI101".toList]⟩ (by decide)⟩

/-- C4. For every identifier `c` that is field 0 of at least one accepted line, the loaded
catalog has a record under `c` whose number is `c` and whose name is field 1 of the last
accepted line whose field 0 is `c`. -/
theorem C4_last_definition_names (fileName : Str) (lines : List Str) (c : Str)
    (h : ∃ line ∈ lines, accepted line = true ∧ field line 0 = c) :
    ∃ r last, (loadCourses fileName (some lines)).courses.find c = some r ∧
      (definitionsOf lines c).getLast? = some last ∧ r.number = c ∧ r.name = field last 1 := by
  have hne : definitionsOf lines c ≠ [] := (definitionsOf_ne_nil_iff lines c).2 h
  have hfind := (find_foldl_readLine lines c).1 (Or.inl hne)
  cases hl : (definitionsOf lines c).getLast? with
  | none => exact absurd (List.getLast?_eq_none_iff.1 hl) hne
  | some last =>
    refine ⟨_, last, hfind, rfl, rfl, ?_⟩
    simp only [lastName, hl]

/-- Witness of C4: CSCI200 is first a placeholder, then defined twice, then referred to again
as a prerequisite; the name of the second definition stays. -/
theorem C4_last_definition_names_witness :
    ∃ r last, (loadCourses "f.csv".toList (some ["A,First,CSCI200".toList, "CSCI200,Old".toList,
        "CSCI200,New,A".toList, "B,Second,CSCI200".toList])).courses.find "CSCI200".toList = some r ∧
      (definitionsOf ["A,First,CSCI200".toList, "CSCI200,Old".toList,
        "CSCI200,New,A".toList, "B,Second,CSCI200".toList] "CSCI200".toList).getLast? = some last ∧
      r.number = "CSCI200".toList ∧ r.name = field last 1 :=
  C4_last_definition_names "f.csv".toList ["A,First,CSCI200".toList, "CSCI200,Old".toList,
    "CSCI200,New,A".toList, "B,Second,CSCI200".toList] "CSCI200".toList
    ⟨"CSCI200,Old".toList, by decide, by decide, by decide⟩

/-- C5. An identifier that occurs as a prerequisite of an accepted line but is never field 0
of an accepted line has an entry in the loaded catalog whose number is the identifier, whose
name is empty and whose prerequisite list is empty. -/
theorem C5_placeholder (fileName : Str) (lines : List Str) (p : Str)
    (hp : ∃ line ∈ lines, accepted line = true ∧ p ∈ prerequisiteFields line)
    (hn : ∀ line ∈ lines, accepted line = true → field line 0 ≠ p) :
    (loadCourses fileName (some lines)).courses.find p = some ⟨p, [], []⟩ := by
  have hd : definitionsOf lines p = [] := by
    by_contra hne
    obtain ⟨line, hmem, hacc, hf⟩ := (definitionsOf_ne_nil_iff lines p).1 hne
    exact hn line hmem hacc hf
  have hfind := (find_foldl_readLine lines p).1 (Or.inr hp)
  rw [hd] at hfind
  exact hfind

/-- Witness of C5: loading only "CSCI200,Advanced,MATH150" gives MATH150 with empty name. -/
theorem C5_placeholder_witness :
    (loadCourses "f.csv".toList (some ["CSCI200,Advanced,MATH150".toList])).courses.find
      "MATH150".toList = some ⟨"MATH150".toList, [], []⟩ :=
  C5_placeholder "f.csv".toList ["CSCI200,Advanced,MATH150".toList] "MATH150".toList
    ⟨"CSCI200,Advanced,MATH150".toList, by decide, by decide, by decide⟩ (by decide)

theorem foldl_readLine_filter (lines : List Str) :
    ∀ st st2 : LoadState, st.courses = st2.courses →
      (lines.foldl readLine st).courses
        = ((lines.filter accepted).foldl readLine st2).courses := by
  induction lines with
  | nil => intro st st2 h; exact h
  | cons x l ih =>
    intro st st2 h
    rw [List.foldl_cons, List.filter_cons]
    by_cases hacc : accepted x = true
    · rw [if_pos hacc, List.foldl_cons]
      apply ih
      rw [readLine_courses, readLine_courses, h]
    · rw [if_neg hacc]
      apply ih
      rw [readLine_courses, if_neg hacc, h]

/-- C6. Partial failure: `loadCourses` returns the same catalog as on the list with all blank
and malformed lines removed; a blank or malformed line leaves the catalog as it is; a
single-field line plus a valid line without prerequisites gives only the valid entry. -/
theorem C6_bad_lines_skipped (fileName : Str) (lines : List Str) :
    (loadCourses fileName (some lines)).courses
      = (loadCourses fileName (some (lines.filter accepted))).courses ∧
    (∀ (st : LoadState) (line : Str), accepted line = false →
      (readLine st line).courses = st.courses) ∧
    (loadCourses fileName (some ["CSCI100".toList, "CSCI101,Data Structures".toList])).courses.entries
      = [("CSCI101".toList, ⟨"CSCI101".toList, "Data Structures".toList, []⟩)] := by
  refine ⟨foldl_readLine_filter lines _ _ rfl, ?_, (by decide :
    (["CSCI100".toList, "CSCI101,Data Structures".toList].foldl readLine
      ⟨Catalog.empty, []⟩).courses.entries
      = [("CSCI101".toList, ⟨"CSCI101".toList, "Data Structures".toList, []⟩)])⟩
  intro st line hacc
  rw [readLine_courses, if_neg (by simp [hacc])]

/-- Witness of C6: a blank line and a single-field line between two valid lines. -/
theorem C6_bad_lines_skipped_witness :
    (readLine ⟨Catalog.empty, []⟩ "CSCI100".toList).courses = Catalog.empty :=
  (C6_bad_lines_skipped [] []).2.1 ⟨Catalog.empty, []⟩ "CSCI100".toList (by decide)


/-! ## Splitting a line -/

theorem tokenLoop_succ_cons (fuel : Nat) (c : Char) (cs : Str) (tokens : List Str) :
    tokenLoop (fuel + 1) (c :: cs) tokens
      = tokenLoop fuel (((c :: cs).dropWhile (fun ch => ch != ',')).drop 1)
          (tokens ++ [(c :: cs).takeWhile (fun ch => ch != ',')]) := rfl

/-- The loop only appends to the vector it is given. -/
theorem tokenLoop_acc (fuel : Nat) : ∀ (ss : Str) (tokens : List Str),
    tokenLoop fuel ss tokens = tokens ++ tokenLoop fuel ss [] := by
  induction fuel with
  | zero => intro ss tokens; simp [tokenLoop]
  | succ n ih =>
    intro ss tokens
    cases ss with
    | nil => simp [tokenLoop, getline]
    | cons c cs =>
      rw [tokenLoop_succ_cons, tokenLoop_succ_cons, ih _ (tokens ++ _), ih _ ([] ++ _)]
      simp

theorem getline_rest_length (c : Char) (cs : Str) :
    (((c :: cs).dropWhile (fun ch => ch != ',')).drop 1).length ≤ cs.length := by
  by_cases hc : (c != ',') = true
  · rw [List.dropWhile_cons, if_pos hc]
    have h2 := (List.dropWhile_suffix (fun ch => ch != ',') (l := cs)).length_le
    rw [List.length_drop]
    omega
  · rw [List.dropWhile_cons, if_neg hc]
    simp

/-- More iterations than characters never change the result: the loop has ended by a failed
`getline` before the bound is reached. -/
theorem tokenLoop_fuel (fuel : Nat) : ∀ (ss : Str) (extra : Nat), ss.length < fuel →
    tokenLoop (fuel + extra) ss [] = tokenLoop fuel ss [] := by
  induction fuel with
  | zero => intro ss extra h; omega
  | succ n ih =>
    intro ss extra h
    cases ss with
    | nil =>
      rw [show n + 1 + extra = (n + extra) + 1 by omega]
      simp [tokenLoop, getline]
    | cons c cs =>
      rw [show n + 1 + extra = (n + extra) + 1 by omega]
      rw [tokenLoop_succ_cons, tokenLoop_succ_cons, tokenLoop_acc (n + extra), tokenLoop_acc n]
      congr 1
      apply ih
      have := getline_rest_length c cs
      simp only [List.length_cons] at h
      omega

/-- Unfolding of `splitLine` on a line that is not blank. -/
theorem splitLine_cons (c : Char) (cs : Str) :
    splitLine (c :: cs) = (c :: cs).takeWhile (fun ch => ch != ',')
      :: splitLine (((c :: cs).dropWhile (fun ch => ch != ',')).drop 1) := by
  show tokenLoop (cs.length + 1 + 1) (c :: cs) []
    = (c :: cs).takeWhile (fun ch => ch != ',')
      :: tokenLoop ((((c :: cs).dropWhile (fun ch => ch != ',')).drop 1).length + 1)
          (((c :: cs).dropWhile (fun ch => ch != ',')).drop 1) []
  rw [tokenLoop_succ_cons, tokenLoop_acc]
  have hlen := getline_rest_length c cs
  obtain ⟨extra, hextra⟩ : ∃ extra, cs.length + 1
      = ((((c :: cs).dropWhile (fun ch => ch != ',')).drop 1).length + 1) + extra :=
    ⟨cs.length - (((c :: cs).dropWhile (fun ch => ch != ',')).drop 1).length, by omega⟩
  rw [hextra, tokenLoop_fuel _ _ extra (by omega)]
  rfl

theorem splitLine_nil : splitLine [] = [] := rfl

/-- The fields of a line that is not blank are free of commas, and writing each field
followed by a comma gives the line, with one comma added when it does not end with one. -/
theorem splitLine_spec (n : Nat) : ∀ ss : Str, ss.length = n → ss ≠ [] →
    (∀ t ∈ splitLine ss, ',' ∉ t) ∧ splitLine ss ≠ [] ∧
    ((splitLine ss).map (fun t => t ++ [','])).flatten
      = if ss.getLast? = some ',' then ss else ss ++ [','] := by
  induction n using Nat.strongRecOn with
  | _ n ih =>
    intro ss hlen hne
    cases ss with
    | nil => exact absurd rfl hne
    | cons c cs =>
      have hsplit := splitLine_cons c cs
      have htd := List.takeWhile_append_dropWhile (fun ch => ch != ',') (c :: cs)
      have htok : ∀ x ∈ (c :: cs).takeWhile (fun ch => ch != ','), x ≠ ',' := by
        intro x hx
        have := List.mem_takeWhile_imp hx
        simpa using this
      have hrestlen := getline_rest_length c cs
      generalize htk : (c :: cs).takeWhile (fun ch => ch != ',') = tok at hsplit htd htok
      cases hd : (c :: cs).dropWhile (fun ch => ch != ',') with
      | nil =>
        rw [hd] at hsplit htd
        rw [List.append_nil] at htd
        rw [hsplit, List.drop_nil, splitLine_nil, ← htd]
        have hlast : tok.getLast? ≠ some ',' := by
          intro h
          exact htok ',' (List.mem_of_mem_getLast? h) rfl
        refine ⟨?_, List.cons_ne_nil _ _, ?_⟩
        · intro t ht hc
          rw [List.mem_singleton] at ht
          subst ht
          exact htok ',' hc rfl
        · rw [if_neg hlast]
          simp
      | cons x rest =>
        have hx : x = ',' := by
          have h := List.head?_dropWhile_not (fun ch => ch != ',') (c :: cs)
          rw [hd] at h
          simpa using h
        subst hx
        rw [hd] at hsplit htd hrestlen
        simp only [List.drop_one, List.tail_cons] at hsplit hrestlen
        rw [hsplit, ← htd]
        cases rest with
        | nil =>
          rw [splitLine_nil]
          refine ⟨?_, List.cons_ne_nil _ _, ?_⟩
          · intro t ht hc
            rw [List.mem_singleton] at ht
            subst ht
            exact htok ',' hc rfl
          · rw [if_pos (List.getLast?_concat tok)]
            simp
        | cons r rs =>
          have hrec := ih (r :: rs).length (by
            rw [← hlen, List.length_cons (a := c)]
            omega) (r :: rs) rfl (List.cons_ne_nil _ _)
          obtain ⟨h1, _, h3⟩ := hrec
          refine ⟨?_, List.cons_ne_nil _ _, ?_⟩
          · intro t ht
            rcases List.mem_cons.1 ht with h | h
            · subst h
              exact fun hc => htok ',' hc rfl
            · exact h1 t h
          · have hl : (tok ++ ',' :: r :: rs).getLast? = (r :: rs).getLast? := by
              rw [List.getLast?_append_cons, List.getLast?_cons_cons]
            rw [hl, List.map_cons, List.flatten_cons, h3]
            by_cases hcomma : (r :: rs).getLast? = some ','
            · rw [if_pos hcomma, if_pos hcomma]
              simp
            · rw [if_neg hcomma, if_neg hcomma]
              simp

theorem flatten_map_append_sep (sep : Str) (toks : List Str) (h : toks ≠ []) :
    (toks.map (fun t => t ++ sep)).flatten = sep.intercalate toks ++ sep := by
  induction toks with
  | nil => exact absurd rfl h
  | cons t ts ih =>
    cases ts with
    | nil => simp [List.intercalate]
    | cons t2 ts =>
      have := ih (List.cons_ne_nil _ _)
      rw [List.map_cons, List.flatten_cons, this]
      simp [List.intercalate]

theorem count_flatten_map_comma (toks : List Str) (h : ∀ t ∈ toks, ',' ∉ t) :
    ((toks.map (fun t => t ++ [','])).flatten).count ',' = toks.length := by
  induction toks with
  | nil => rfl
  | cons t ts ih =>
    rw [List.map_cons, List.flatten_cons, List.count_append, List.count_append,
      ih (fun t ht => h t (List.mem_cons_of_mem _ ht)),
      List.count_eq_zero.2 (h t (List.mem_cons_self _ _))]
    simp
    omega

/-- C7 as stated fails: the line "CSCI100," has one comma but is split into the single field
"CSCI100", and joining the fields with ',' does not give the line back. -/
theorem C7_counterexample :
    "CSCI100,".toList ≠ [] ∧
    splitLine "CSCI100,".toList = ["CSCI100".toList] ∧
    (splitLine "CSCI100,".toList).length ≠ ("CSCI100,".toList).count ',' + 1 ∧
    [','].intercalate (splitLine "CSCI100,".toList) ≠ "CSCI100,".toList := by
  decide

/-- C7, amended. Every field of a line that is not blank is free of commas and nothing is
trimmed: if the line does not end with a comma, a line with k commas gives k+1 fields and
joining the fields with ',' gives the line back; if the line ends with a comma, the empty field
after the last comma is dropped, so k commas give k fields, and joining the fields with ','
and adding the final ',' gives the line back. -/
theorem C7_split_on_comma (line : Str) (h : line ≠ []) :
    (∀ f ∈ splitLine line, ',' ∉ f) ∧
    (line.getLast? ≠ some ',' →
      [','].intercalate (splitLine line) = line ∧
      (splitLine line).length = line.count ',' + 1) ∧
    (line.getLast? = some ',' →
      [','].intercalate (splitLine line) ++ [','] = line ∧
      (splitLine line).length = line.count ',') := by
  obtain ⟨hfree, hnil, hflat⟩ := splitLine_spec line.length line rfl h
  have hcount := count_flatten_map_comma (splitLine line) hfree
  rw [hflat] at hcount
  rw [flatten_map_append_sep _ _ hnil] at hflat
  refine ⟨hfree, ?_, ?_⟩
  · intro hlast
    rw [if_neg hlast] at hflat hcount
    refine ⟨List.append_cancel_right hflat, ?_⟩
    rw [← hcount, List.count_append]
    rfl
  · intro hlast
    rw [if_pos hlast] at hflat hcount
    exact ⟨hflat, hcount.symm⟩

/-- Witness of the amended C7 on a line with inner blanks and an empty middle field. -/
theorem C7_split_on_comma_witness :
    " a ,,b c".toList ≠ [] ∧
    ((∀ f ∈ splitLine " a ,,b c".toList, ',' ∉ f) ∧
    ((" a ,,b c".toList).getLast? ≠ some ',' →
      [','].intercalate (splitLine " a ,,b c".toList) = " a ,,b c".toList ∧
      (splitLine " a ,,b c".toList).length = (" a ,,b c".toList).count ',' + 1) ∧
    ((" a ,,b c".toList).getLast? = some ',' →
      [','].intercalate (splitLine " a ,,b c".toList) ++ [','] = " a ,,b c".toList ∧
      (splitLine " a ,,b c".toList).length = (" a ,,b c".toList).count ',')) :=
  ⟨by decide, C7_split_on_comma " a ,,b c".toList (by decide)⟩

/-! ## The order of strings and the sort -/

theorem strLt_nil_right (a : Str) : strLt a [] = false := by
  cases a <;> rfl

theorem strLt_cons_cons (a b : Char) (as bs : Str) :
    strLt (a :: as) (b :: bs) = if a < b then true else if b < a then false else strLt as bs :=
  rfl

theorem strLt_irrefl (a : Str) : strLt a a = false := by
  induction a with
  | nil => rfl
  | cons c cs ih => rw [strLt_cons_cons, if_neg (lt_irrefl c), if_neg (lt_irrefl c), ih]

theorem strLt_asymm : ∀ a b : Str, strLt a b = true → strLt b a = false
  | [], _, _ => strLt_nil_right _
  | _ :: _, [], h => by cases h
  | a :: as, b :: bs, h => by
    rw [strLt_cons_cons] at h ⊢
    by_cases hab : a < b
    · rw [if_neg (lt_asymm hab), if_pos hab]
    · rw [if_neg hab] at h
      by_cases hba : b < a
      · rw [if_pos hba] at h; cases h
      · rw [if_neg hba] at h
        rw [if_neg hba, if_neg hab]
        exact strLt_asymm as bs h

theorem strLt_connected : ∀ a b : Str, strLt a b = false → strLt b a = false → a = b
  | [], [], _, _ => rfl
  | [], _ :: _, h, _ => by cases h
  | _ :: _, [], _, h => by cases h
  | a :: as, b :: bs, h1, h2 => by
    rw [strLt_cons_cons] at h1 h2
    by_cases hab : a < b
    · rw [if_pos hab] at h1; cases h1
    · by_cases hba : b < a
      · rw [if_pos hba] at h2; cases h2
      · rw [if_neg hab, if_neg hba] at h1
        rw [if_neg hba, if_neg hab] at h2
        have hc : a = b := le_antisymm (not_lt.1 hba) (not_lt.1 hab)
        rw [hc, strLt_connected as bs h1 h2]

theorem strLe_trans : ∀ a b c : Str, strLt b a = false → strLt c b = false → strLt c a = false
  | [], _, c, _, _ => strLt_nil_right c
  | _ :: _, [], _, h, _ => by cases h
  | _ :: _, _ :: _, [], _, h => by cases h
  | a :: as, b :: bs, c :: cs, h1, h2 => by
    rw [strLt_cons_cons] at h1 h2 ⊢
    by_cases hba : b < a
    · rw [if_pos hba] at h1; cases h1
    · rw [if_neg hba] at h1
      by_cases hcb : c < b
      · rw [if_pos hcb] at h2; cases h2
      · rw [if_neg hcb] at h2
        have hab : a ≤ b := not_lt.1 hba
        have hbc : b ≤ c := not_lt.1 hcb
        have hca : ¬ c < a := not_lt.2 (le_trans hab hbc)
        rw [if_neg hca]
        by_cases hac : a < c
        · rw [if_pos hac]
        · rw [if_neg hac]
          have hac2 : a = c := le_antisymm (le_trans hab hbc) (not_lt.1 hac)
          subst hac2
          have hab2 : a = b := le_antisymm hab hbc
          subst hab2
          rw [if_neg (lt_irrefl a)] at h1 h2
          exact strLe_trans as bs cs h1 h2

theorem strLe_total (a b : Str) : strLt b a = false ∨ strLt a b = false := by
  cases h : strLt b a with
  | false => exact Or.inl rfl
  | true => exact Or.inr (strLt_asymm b a h)

theorem sortStrings_perm (v : List Str) : (sortStrings v).Perm v :=
  List.perm_insertionSort _ v

theorem sortStrings_sorted (v : List Str) :
    (sortStrings v).Pairwise (fun a b => strLt b a = false) :=
  @List.sorted_insertionSort Str (fun a b => strLt b a = false) _ ⟨strLe_total⟩
    ⟨strLe_trans⟩ v

theorem sortStrings_strict (v : List Str) (h : v.Nodup) :
    (sortStrings v).Pairwise (fun a b => strLt a b = true) := by
  have hnd : (sortStrings v).Nodup := (sortStrings_perm v).nodup_iff.2 h
  have hboth := (sortStrings_sorted v).and hnd
  refine hboth.imp ?_
  intro a b hab
  cases hlt : strLt a b with
  | true => rfl
  | false => exact absurd (strLt_connected a b hlt hab.1) hab.2

/-! ## The printers -/

theorem foldlM_printListLine (courses : Catalog) (numbers : List Str) :
    ∀ out : Str, (∀ number ∈ numbers, courses.find number ≠ none) →
      numbers.foldlM (printListLine courses) out
        = some (out ++ (numbers.map (fun number =>
            number ++ ", ".toList ++ ((courses.find number).getD Course.default).name
              ++ ['\n'])).flatten) := by
  induction numbers with
  | nil => intro out _; simp
  | cons n ns ih =>
    intro out h
    rw [List.foldlM_cons]
    cases hf : courses.find n with
    | none => exact absurd hf (h n (List.mem_cons_self _ _))
    | some r =>
      have hstep : printListLine courses out n
          = some (out ++ n ++ ", ".toList ++ r.name ++ ['\n']) := by
        unfold printListLine
        rw [hf]
      rw [hstep]
      show List.foldlM (printListLine courses) (out ++ n ++ ", ".toList ++ r.name ++ ['\n']) ns
        = _
      rw [ih _ (fun m hm => h m (List.mem_cons_of_mem _ hm))]
      simp [hf]

theorem printCourseList_eq (courses : Catalog) :
    printCourseList courses
      = some ("\nCourse List:\n".toList ++ ((sortedCourseNumbers courses).map (fun number =>
          number ++ ", ".toList ++ ((courses.find number).getD Course.default).name
            ++ ['\n'])).flatten) := by
  unfold printCourseList
  apply foldlM_printListLine
  intro number hmem
  have hk : number ∈ courses.keys := (sortStrings_perm courses.keys).mem_iff.1 hmem
  exact (Catalog.mem_keys_iff courses number).1 hk

/-- C8. The identifiers `printCourseList` prints are in strictly ascending lexicographic
order: the output is the heading followed by one line per element of the sorted vector, in
its order, and each element of that vector is smaller than every later one; for the keys
B100 and A100, A100 is printed before B100. -/
theorem C8_listing_ascending (courses : Catalog) :
    printCourseList courses
      = some ("\nCourse List:\n".toList ++ ((sortedCourseNumbers courses).map (fun number =>
          number ++ ", ".toList ++ ((courses.find number).getD Course.default).name
            ++ ['\n'])).flatten) ∧
    (sortedCourseNumbers courses).Pairwise (fun a b => strLt a b = true) ∧
    printCourseList ⟨[("B100".toList, ⟨"B100".toList, "Beta".toList, []⟩),
        ("A100".toList, ⟨"A100".toList, "Alpha".toList, []⟩)], by decide⟩
      = some "\nCourse List:\nA100, Alpha\nB100, Beta\n".toList :=
  ⟨printCourseList_eq courses, sortStrings_strict courses.keys courses.nodupKeys, by decide⟩

/-- C9. The function `printCourseList` prints exactly one "identifier, name" line per catalog
entry: the listed identifiers are a permutation of the keys without repetition, and the listed
identifiers paired with the records whose names are printed are a permutation of the
entries. -/
theorem C9_listing_complete (courses : Catalog) :
    printCourseList courses
      = some ("\nCourse List:\n".toList ++ ((sortedCourseNumbers courses).map (fun number =>
          number ++ ", ".toList ++ ((courses.find number).getD Course.default).name
            ++ ['\n'])).flatten) ∧
    (sortedCourseNumbers courses).Perm courses.keys ∧
    (sortedCourseNumbers courses).Nodup ∧
    ((sortedCourseNumbers courses).map
      (fun number => (number, (courses.find number).getD Course.default))).Perm
        courses.entries := by
  refine ⟨printCourseList_eq courses, sortStrings_perm courses.keys,
    (sortStrings_perm courses.keys).nodup_iff.2 courses.nodupKeys, ?_⟩
  have hp := (sortStrings_perm courses.keys).map
    (fun number => (number, (courses.find number).getD Course.default))
  have hmap : courses.keys.map (fun number => (number, (courses.find number).getD Course.default))
      = courses.entries := by
    unfold Catalog.keys
    rw [List.map_map]
    conv => rhs; rw [← List.map_id courses.entries]
    refine List.map_congr_left ?_
    intro e he
    show (e.1, (courses.find e.1).getD Course.default) = e
    rw [Catalog.find_of_mem courses e he]
    rfl
  rw [hmap] at hp
  exact hp

/-- C10. The function `printCourseDetails` reports "not found" exactly when the identifier is
not a key of the catalog, and then its whole output is the not-found message. -/
theorem C10_not_found (courses : Catalog) (courseNumber : Str) :
    printCourseDetails courses courseNumber = "Error: Course not found.\n".toList
      ↔ courseNumber ∉ courses.keys := by
  rw [Catalog.mem_keys_iff, not_not]
  unfold printCourseDetails
  cases hf : courses.find courseNumber with
  | none => exact ⟨fun _ => rfl, fun _ => rfl⟩
  | some r =>
    refine ⟨fun h => ?_, fun h => by cases h⟩
    have h1 : "\nCourse Number: ".toList = '\n' :: "Course Number: ".toList := rfl
    have h2 : "Error: Course not found.\n".toList = 'E' :: "rror: Course not found.\n".toList :=
      rfl
    simp only [h1, h2, List.cons_append, List.cons.injEq] at h
    exact absurd h.1 (by decide)


/-! ## The detail view of a stored course -/

/-- C11. For a key of the catalog, `printCourseDetails` writes the record's number, then its
name, then a tail: for a non-empty prerequisite list the tail is the heading "Prerequisites:"
and one line per prerequisite in the stored order, for an empty list it is the marker
"No prerequisites."; the tail is the marker if and only if the list is empty. -/
theorem C11_details_found (courses : Catalog) (courseNumber : Str) (course : Course)
    (h : courses.find courseNumber = some course) :
    ∃ tail : Str,
      printCourseDetails courses courseNumber
        = "\nCourse Number: ".toList ++ course.number ++ ['\n'] ++
          "Course Name: ".toList ++ course.name ++ ['\n'] ++ tail ∧
      (course.prerequisites ≠ [] →
        tail = "Prerequisites:\n".toList ++ (course.prerequisites.map
          (fun prerequisite => " - ".toList ++ prerequisite ++ ['\n'])).flatten) ∧
      (course.prerequisites = [] → tail = "No prerequisites.\n".toList) ∧
      (tail = "No prerequisites.\n".toList ↔ course.prerequisites = []) := by
  unfold printCourseDetails
  rw [h]
  by_cases hp : course.prerequisites = []
  · refine ⟨"No prerequisites.\n".toList, ?_, fun hne => absurd hp hne, fun _ => rfl,
      fun _ => hp, fun _ => rfl⟩
    simp only [hp, ne_eq, not_true_eq_false, if_false]
  · refine ⟨_, ?_, fun _ => rfl, fun he => absurd he hp, fun ht => ?_, fun he => absurd he hp⟩
    · simp only [ne_eq, hp, not_false_eq_true, if_true]
    · exfalso
      have h1 : "Prerequisites:\n".toList = 'P' :: "rerequisites:\n".toList := rfl
      have h2 : "No prerequisites.\n".toList = 'N' :: "o prerequisites.\n".toList := rfl
      rw [h1, h2, List.cons_append] at ht
      exact absurd (List.cons.inj ht).1 (by decide)

/-- Witness of C11 on a record with two prerequisites. -/
theorem C11_details_found_witness :
    ∃ tail : Str,
      printCourseDetails ⟨[("B".toList, ⟨"B".toList, "Bn".toList, ["A".toList, "C".toList]⟩)],
          by decide⟩ "B".toList
        = "\nCourse Number: ".toList ++ "B".toList ++ ['\n'] ++
          "Course Name: ".toList ++ "Bn".toList ++ ['\n'] ++ tail ∧
      ((["A".toList, "C".toList] : List Str) ≠ [] →
        tail = "Prerequisites:\n".toList ++ ((["A".toList, "C".toList] : List Str).map
          (fun prerequisite => " - ".toList ++ prerequisite ++ ['\n'])).flatten) ∧
      ((["A".toList, "C".toList] : List Str) = [] → tail = "No prerequisites.\n".toList) ∧
      (tail = "No prerequisites.\n".toList ↔ (["A".toList, "C".toList] : List Str) = []) :=
  C11_details_found ⟨[("B".toList, ⟨"B".toList, "Bn".toList, ["A".toList, "C".toList]⟩)],
    by decide⟩ "B".toList ⟨"B".toList, "Bn".toList, ["A".toList, "C".toList]⟩ (by decide)

/-! ## The menu loop -/

/-- On a value of `int` the cycle is the switch on that value. -/
theorem iteration_fits (files : Files) (st : Shell) (entered : Int)
    (h : fitsInt entered = true) :
    iteration files st entered
      = switchChoice files { st with cout := st.cout ++ menuText, choice := entered } := by
  unfold iteration
  rw [if_pos h]

/-- A cycle that comes back to the menu has read a value of `int`. -/
theorem fitsInt_of_iteration_ok (files : Files) (st next : Shell) (entered : Int)
    (h : iteration files st entered = .ok next) : fitsInt entered = true := by
  by_contra hfit
  unfold iteration at h
  rw [if_neg hfit] at h
  split at h <;> cases h

theorem iteration_load (files : Files) (st : Shell) (word : Str) (rest : List Str)
    (h : st.words = word :: rest) :
    iteration files st 1 = .ok { st with
      choice := 1
      fileName := word
      words := rest
      courses := (loadCourses word (files word)).courses
      cerr := st.cerr ++ (loadCourses word (files word)).cerr
      cout := st.cout ++ menuText ++ "Enter the file name to load: ".toList ++
        "Attempting to open file: ".toList ++ word ++ ['\n'] ++
        (if (loadCourses word (files word)).courses.isEmpty then []
          else "Data loaded successfully.\n".toList) } := by
  rw [iteration_fits files st 1 (by decide)]
  unfold switchChoice
  simp only [h, if_true]

/-- C12. Load replaces, never merges: after menu choice 1 the shell's catalog is the result of
`loadCourses` on the entered file alone, whatever catalog the shell held before. -/
theorem C12_load_replaces (files : Files) (st : Shell) (word : Str) (rest : List Str)
    (h : st.words = word :: rest) :
    ∃ next, iteration files st 1 = .ok next ∧
      next.courses = (loadCourses word (files word)).courses ∧
      ∀ prior : Catalog, ∃ next2, iteration files { st with courses := prior } 1 = .ok next2 ∧
        next2.courses = next.courses :=
  ⟨_, iteration_load files st word rest h, rfl,
    fun prior => ⟨_, iteration_load files { st with courses := prior } word rest h, rfl⟩⟩

/-- Witness of C12: a shell holding the course OLD1 loads "courses.csv". -/
theorem C12_load_replaces_witness :
    ∃ next, iteration exampleFiles (exampleShell ["courses.csv".toList]) 1 = .ok next ∧
      next.courses
        = (loadCourses "courses.csv".toList (exampleFiles "courses.csv".toList)).courses ∧
      ∀ prior : Catalog, ∃ next2,
        iteration exampleFiles { exampleShell ["courses.csv".toList] with courses := prior } 1
          = .ok next2 ∧
        next2.courses = next.courses :=
  C12_load_replaces exampleFiles (exampleShell ["courses.csv".toList]) "courses.csv".toList []
    rfl

/-- C13. When the file cannot be opened, `loadCourses` reports an error on `cerr` and returns
the empty catalog; after menu choice 1 with such a path the shell's catalog is empty whatever
it held before, the output has no success message, and the shell is not terminated. -/
theorem C13_unopenable_file (files : Files) (st : Shell) (word : Str) (rest : List Str)
    (h : st.words = word :: rest) (hf : files word = none) :
    (loadCourses word none).courses = Catalog.empty ∧
    (loadCourses word none).cerr = "Error: Cannot open file \"".toList ++ word ++
      "\". Check if the file exists and the path is correct.".toList ++ ['\n'] ∧
    ∃ next, iteration files st 1 = .ok next ∧
      next.courses = Catalog.empty ∧
      next.cout = st.cout ++ menuText ++ "Enter the file name to load: ".toList ++
        "Attempting to open file: ".toList ++ word ++ ['\n'] ∧
      next.cerr = st.cerr ++ "Error: Cannot open file \"".toList ++ word ++
        "\". Check if the file exists and the path is correct.".toList ++ ['\n'] ∧
      ¬ terminated next := by
  refine ⟨rfl, rfl, _, iteration_load files st word rest h, ?_, ?_, ?_, ?_⟩
  · rw [hf]; rfl
  · simp only [hf]
    simp [loadCourses, Catalog.isEmpty, Catalog.empty]
  · simp only [hf]
    simp [loadCourses]
  · simp [terminated]

/-- Witness of C13: a shell holding the course OLD1 is given a path that does not open. -/
theorem C13_unopenable_file_witness :
    (loadCourses "nofile".toList none).courses = Catalog.empty ∧
    (loadCourses "nofile".toList none).cerr = "Error: Cannot open file \"".toList ++
      "nofile".toList ++ "\". Check if the file exists and the path is correct.".toList ++
      ['\n'] ∧
    ∃ next, iteration exampleFiles (exampleShell ["nofile".toList]) 1 = .ok next ∧
      next.courses = Catalog.empty ∧
      next.cout = (exampleShell ["nofile".toList]).cout ++ menuText ++
        "Enter the file name to load: ".toList ++
        "Attempting to open file: ".toList ++ "nofile".toList ++ ['\n'] ∧
      next.cerr = (exampleShell ["nofile".toList]).cerr ++ "Error: Cannot open file \"".toList ++
        "nofile".toList ++ "\". Check if the file exists and the path is correct.".toList ++
        ['\n'] ∧
      ¬ terminated next :=
  C13_unopenable_file exampleFiles (exampleShell ["nofile".toList]) "nofile".toList [] rfl
    (by decide)

theorem iteration_list (files : Files) (st : Shell) :
    iteration files st 2
      = if st.courses.isEmpty then
          .ok { st with choice := 2, cout := st.cout ++ menuText ++ noDataText }
        else
          .ok { st with
            choice := 2
            cout := st.cout ++ menuText ++ "\nCourse List:\n".toList ++
              ((sortedCourseNumbers st.courses).map (fun number =>
                number ++ ", ".toList ++ ((st.courses.find number).getD Course.default).name
                  ++ ['\n'])).flatten } := by
  rw [iteration_fits files st 2 (by decide)]
  unfold switchChoice
  simp only [show ¬ ((2 : Int) = 1) by decide, if_false, if_true, printCourseList_eq]
  split
  · rfl
  · simp

theorem iteration_detail (files : Files) (st : Shell) :
    iteration files st 3
      = if st.courses.isEmpty then
          .ok { st with choice := 3, cout := st.cout ++ menuText ++ noDataText }
        else
          match st.words with
          | [] => .error .noInput
          | word :: rest =>
            .ok { st with
              choice := 3
              words := rest
              cout := st.cout ++ menuText ++ "What course do you want to know about? ".toList ++
                printCourseDetails st.courses word } := by
  rw [iteration_fits files st 3 (by decide)]
  unfold switchChoice
  simp only [show ¬ ((3 : Int) = 1) by decide, show ¬ ((3 : Int) = 2) by decide, if_false,
    if_true]

/-- C14. On an empty catalog menu choices 2 and 3 write only the "no data loaded" message
after the menu: no printer runs and choice 3 reads no word. On a non-empty catalog choice 2
writes exactly the output of `printCourseList`, and choice 3 writes the prompt followed by the
output of `printCourseDetails` for the word it reads. In each case the shell is not
terminated. -/
theorem C14_menu_2_and_3 (files : Files) (st : Shell) :
    (st.courses.isEmpty = true →
      iteration files st 2
        = .ok { st with choice := 2, cout := st.cout ++ menuText ++ noDataText } ∧
      iteration files st 3
        = .ok { st with choice := 3, cout := st.cout ++ menuText ++ noDataText }) ∧
    (st.courses.isEmpty = false →
      (∃ out, printCourseList st.courses = some out ∧
        iteration files st 2 = .ok { st with choice := 2, cout := st.cout ++ menuText ++ out }) ∧
      (∀ word rest, st.words = word :: rest →
        iteration files st 3
          = .ok { st with
              choice := 3
              words := rest
              cout := st.cout ++ menuText ++ "What course do you want to know about? ".toList ++
                printCourseDetails st.courses word })) ∧
    (∀ next, iteration files st 2 = .ok next ∨ iteration files st 3 = .ok next →
      ¬ terminated next) := by
  refine ⟨fun he => ?_, fun he => ⟨?_, ?_⟩, ?_⟩
  · rw [iteration_list, iteration_detail]
    simp [he]
  · refine ⟨_, printCourseList_eq st.courses, ?_⟩
    rw [iteration_list]
    simp [he]
  · intro word rest hw
    rw [iteration_detail]
    simp [he, hw]
  · intro next hn
    rcases hn with hn | hn
    · rw [iteration_list] at hn
      split at hn <;> (cases hn; simp [terminated])
    · rw [iteration_detail] at hn
      split at hn
      · cases hn; simp [terminated]
      · split at hn
        · cases hn
        · cases hn; simp [terminated]

/-- Witness of C14: choice 3 on a freshly started shell leaves the word on the input. -/
theorem C14_menu_2_and_3_witness :
    iteration exampleFiles (initialShell ["CSCI100".toList]) 2
      = .ok { initialShell ["CSCI100".toList] with
          choice := 2
          cout := (initialShell ["CSCI100".toList]).cout ++ menuText ++ noDataText } ∧
    iteration exampleFiles (initialShell ["CSCI100".toList]) 3
      = .ok { initialShell ["CSCI100".toList] with
          choice := 3
          cout := (initialShell ["CSCI100".toList]).cout ++ menuText ++ noDataText } :=
  (C14_menu_2_and_3 exampleFiles (initialShell ["CSCI100".toList])).1 (by decide)

/-- The switch never assigns `choice`. -/
theorem switchChoice_choice (files : Files) (st next : Shell)
    (h : switchChoice files st = .ok next) : next.choice = st.choice := by
  unfold switchChoice at h
  split at h
  · split at h
    · cases h
    · cases h; rfl
  · split at h
    · split at h
      · cases h; rfl
      · split at h
        · cases h
        · cases h; rfl
    · split at h
      · split at h
        · cases h; rfl
        · split at h
          · cases h
          · cases h; rfl
      · split at h
        · cases h; rfl
        · cases h; rfl

theorem iteration_choice (files : Files) (st next : Shell) (entered : Int)
    (h : iteration files st entered = .ok next) : next.choice = entered := by
  rw [iteration_fits files st entered (fitsInt_of_iteration_ok files st next entered h)] at h
  exact switchChoice_choice files _ next h

theorem iteration_exit (files : Files) (st : Shell) :
    iteration files st 9 = .ok { st with
      choice := 9
      cout := st.cout ++ menuText ++ "Thank you for using the course planner!\n".toList } := by
  rw [iteration_fits files st 9 (by decide)]
  unfold switchChoice
  simp only [show ¬ ((9 : Int) = 1) by decide, show ¬ ((9 : Int) = 2) by decide,
    show ¬ ((9 : Int) = 3) by decide, if_false, if_true]

theorem iteration_invalid (files : Files) (st : Shell) (entered : Int)
    (hfit : fitsInt entered = true) (h1 : entered ≠ 1)
    (h2 : entered ≠ 2) (h3 : entered ≠ 3) (h9 : entered ≠ 9) :
    iteration files st entered = .ok { st with
      choice := entered
      cout := st.cout ++ menuText ++ (toString entered).toList ++
        " is not a valid option.\n".toList } := by
  rw [iteration_fits files st entered hfit]
  unfold switchChoice
  simp only [h1, h2, h3, h9, if_false]

theorem mainLoop_terminated (files : Files) (choices : List Int) (st : Shell)
    (h : terminated st) : mainLoop files choices st = .ok st := by
  cases choices with
  | nil => rfl
  | cons entered rest =>
    have h9 : st.choice = 9 := h
    unfold mainLoop
    rw [if_neg (fun hn => hn h9)]

theorem mainLoop_spec (files : Files) (choices : List Int) :
    ∀ st final : Shell, ¬ terminated st → mainLoop files choices st = .ok final →
      (terminated final ↔ 9 ∈ choices) := by
  induction choices with
  | nil =>
    intro st final hst h
    cases h
    simp [hst]
  | cons entered rest ih =>
    intro st final hst h
    have hst9 : st.choice ≠ 9 := hst
    unfold mainLoop at h
    rw [if_pos hst9] at h
    cases hit : iteration files st entered with
    | error e => rw [hit] at h; cases h
    | ok next =>
      rw [hit] at h
      simp only at h
      have hc := iteration_choice files st next entered hit
      by_cases h9 : entered = 9
      · have hterm : terminated next := by rw [terminated, hc, h9]
        rw [mainLoop_terminated files rest next hterm] at h
        cases h
        simp [hterm, h9]
      · have hnt : ¬ terminated next := by rw [terminated, hc]; exact h9
        rw [ih next final hnt h]
        constructor
        · intro hm; exact List.mem_cons_of_mem _ hm
        · intro hm
          rcases List.mem_cons.1 hm with hm | hm
          · exact absurd hm.symm h9
          · exact hm

/-- The switch comes back with a state unless a prompt finds no word. -/
theorem switchChoice_ok_or_noInput (files : Files) (st : Shell) :
    (∃ next, switchChoice files st = .ok next) ∨ switchChoice files st = .error .noInput := by
  unfold switchChoice
  rw [printCourseList_eq]
  split
  · split
    · exact Or.inr rfl
    · exact Or.inl ⟨_, rfl⟩
  · split
    · split
      · exact Or.inl ⟨_, rfl⟩
      · exact Or.inl ⟨_, rfl⟩
    · split
      · split
        · exact Or.inl ⟨_, rfl⟩
        · split
          · exact Or.inr rfl
          · exact Or.inl ⟨_, rfl⟩
      · split
        · exact Or.inl ⟨_, rfl⟩
        · exact Or.inl ⟨_, rfl⟩

/-- On values of `int` the loop comes back with a state unless a prompt finds no word. -/
theorem mainLoop_ok_or_noInput (files : Files) (choices : List Int) :
    ∀ st : Shell, (∀ c ∈ choices, fitsInt c = true) →
      (∃ final, mainLoop files choices st = .ok final) ∨
        mainLoop files choices st = .error .noInput := by
  induction choices with
  | nil => intro st _; exact Or.inl ⟨st, rfl⟩
  | cons entered rest ih =>
    intro st hfit
    unfold mainLoop
    by_cases h9 : st.choice ≠ 9
    · rw [if_pos h9, iteration_fits files st entered (hfit entered (List.mem_cons_self _ _))]
      rcases switchChoice_ok_or_noInput files
          { st with cout := st.cout ++ menuText, choice := entered } with ⟨next, hn⟩ | hn
      · rw [hn]
        exact ih next (fun c hc => hfit c (List.mem_cons_of_mem _ hc))
      · rw [hn]
        exact Or.inr rfl
    · rw [if_neg h9]
      exact Or.inl ⟨st, rfl⟩

/-- C15 as stated fails on a number that `int` cannot hold: 2147483648 is an integer choice
other than 1, 2, 3 and 9, yet what the cycle echoes is 2147483647 and not the value entered,
and in the sequence 2147483648, 9 the choice 9 is never read: the run does not come back with
a state, and the state at the end of its only cycle is not terminated. -/
theorem C15_counterexample :
    ((2147483648 : Int) ≠ 1 ∧ (2147483648 : Int) ≠ 2 ∧ (2147483648 : Int) ≠ 3 ∧
      (2147483648 : Int) ≠ 9) ∧
    iteration exampleFiles (initialShell []) 2147483648
      = .error (.cinFailed { initialShell [] with
          choice := 2147483647
          cout := (initialShell []).cout ++ menuText ++
            "2147483647 is not a valid option.\n".toList }) ∧
    (9 : Int) ∈ [2147483648, 9] ∧
    main exampleFiles [2147483648, 9] []
      = .error (.cinFailed { initialShell [] with
          choice := 2147483647
          cout := (initialShell []).cout ++ menuText ++
            "2147483647 is not a valid option.\n".toList }) ∧
    ¬ terminated { initialShell [] with
        choice := 2147483647
        cout := (initialShell []).cout ++ menuText ++
          "2147483647 is not a valid option.\n".toList } :=
  ⟨by decide, rfl, by decide, rfl, by decide⟩

/-- C15, amended to the choices that are values of `int` (from -2147483648 to 2147483647). A
cycle that comes back to the menu ends in the terminated state if and only if the choice it
read is 9; choice 9 always completes and terminates; an invalid choice that is a value of
`int` is echoed and leaves the shell awaiting; whenever the loop comes back with a state after
a sequence of choices, starting from a shell that awaits a choice (in particular from the
start of `main`), that state is terminated if and only if 9 is among the choices; and on a
sequence of values of `int` the loop does come back with a state unless a prompt finds no
word. -/
theorem C15_terminated_iff_nine (files : Files) :
    (∀ (st next : Shell) (entered : Int), iteration files st entered = .ok next →
      (terminated next ↔ entered = 9)) ∧
    (∀ st : Shell, ∃ next, iteration files st 9 = .ok next ∧ terminated next) ∧
    (∀ (st : Shell) (entered : Int), fitsInt entered = true →
      entered ≠ 1 → entered ≠ 2 → entered ≠ 3 → entered ≠ 9 →
      iteration files st entered = .ok { st with
        choice := entered
        cout := st.cout ++ menuText ++ (toString entered).toList ++
          " is not a valid option.\n".toList }) ∧
    (∀ (choices : List Int) (st final : Shell), ¬ terminated st →
      mainLoop files choices st = .ok final → (terminated final ↔ 9 ∈ choices)) ∧
    (∀ (choices : List Int) (words : List Str) (final : Shell),
      main files choices words = .ok final → (terminated final ↔ 9 ∈ choices)) ∧
    (∀ (choices : List Int) (st : Shell), (∀ c ∈ choices, fitsInt c = true) →
      (∃ final, mainLoop files choices st = .ok final) ∨
        mainLoop files choices st = .error .noInput) := by
  refine ⟨?_, ?_, iteration_invalid files, mainLoop_spec files, ?_,
    fun choices st => mainLoop_ok_or_noInput files choices st⟩
  · intro st next entered h
    rw [terminated, iteration_choice files st next entered h]
  · intro st
    exact ⟨_, iteration_exit files st, rfl⟩
  · intro choices words final h
    have hstart : ¬ terminated (initialShell words) := by
      show ¬ ((0 : Int) = 9)
      decide
    exact mainLoop_spec files choices (initialShell words) final hstart h

/-- Witness of C15: a session that lists, loads, lists, asks for a course, enters the invalid
choice 7 and exits; and the same session without the 9. -/
theorem C15_terminated_iff_nine_witness :
    (∃ final, main exampleFiles [2, 1, 2, 3, 7, 9] ["courses.csv".toList, "CSCI100".toList]
        = .ok final ∧ (terminated final ↔ (9 : Int) ∈ [2, 1, 2, 3, 7, 9]) ∧ terminated final) ∧
    (∃ final, main exampleFiles [2, 1, 2, 3, 7] ["courses.csv".toList, "CSCI100".toList]
        = .ok final ∧ (terminated final ↔ (9 : Int) ∈ [2, 1, 2, 3, 7]) ∧ ¬ terminated final) ∧
    (fitsInt 7 = true ∧
      iteration exampleFiles (initialShell []) 7 = .ok { initialShell [] with
        choice := 7
        cout := (initialShell []).cout ++ menuText ++ (toString (7 : Int)).toList ++
          " is not a valid option.\n".toList }) :=
  ⟨⟨_, rfl, (C15_terminated_iff_nine exampleFiles).2.2.2.2.1 [2, 1, 2, 3, 7, 9]
      ["courses.csv".toList, "CSCI100".toList] _ rfl, by decide⟩,
    ⟨_, rfl, (C15_terminated_iff_nine exampleFiles).2.2.2.2.1 [2, 1, 2, 3, 7]
      ["courses.csv".toList, "CSCI100".toList] _ rfl, by decide⟩,
    ⟨by decide, (C15_terminated_iff_nine exampleFiles).2.2.1 (initialShell []) 7 (by decide)
      (by decide) (by decide) (by decide) (by decide)⟩⟩

/-- C16. Loading the same file twice in succession gives, after the second load, a catalog
with the same keys and, under each key, the same record as after the first load. -/
theorem C16_load_twice (files : Files) (st : Shell) (word : Str) (rest : List Str)
    (h : st.words = word :: word :: rest) :
    ∃ first second, iteration files st 1 = .ok first ∧ iteration files first 1 = .ok second ∧
      second.courses = first.courses ∧
      second.courses.keys = first.courses.keys ∧
      ∀ key, second.courses.find key = first.courses.find key :=
  ⟨_, _, iteration_load files st word (word :: rest) h, iteration_load files _ word rest rfl,
    rfl, rfl, fun _ => rfl⟩

/-- Witness of C16: "courses.csv" is loaded twice. -/
theorem C16_load_twice_witness :
    ∃ first second,
      iteration exampleFiles (exampleShell ["courses.csv".toList, "courses.csv".toList]) 1
        = .ok first ∧
      iteration exampleFiles first 1 = .ok second ∧
      second.courses = first.courses ∧
      second.courses.keys = first.courses.keys ∧
      ∀ key, second.courses.find key = first.courses.find key :=
  C16_load_twice exampleFiles (exampleShell ["courses.csv".toList, "courses.csv".toList])
    "courses.csv".toList [] rfl

theorem intercalate_append_empty (sep : Str) (toks : List Str) (h : toks ≠ []) :
    sep.intercalate (toks ++ [[]]) = sep.intercalate toks ++ sep := by
  have h1 := flatten_map_append_sep sep (toks ++ [[]]) (by simp)
  rw [List.map_append, List.flatten_append, flatten_map_append_sep sep toks h] at h1
  simp only [List.map_cons, List.map_nil, List.nil_append, List.flatten_cons, List.flatten_nil,
    List.append_nil] at h1
  exact (List.append_cancel_right h1).symm

/-- The number of fields of a line that is not blank, from the commas before its last
character. -/
theorem splitLine_length (init : Str) (x : Char) :
    (splitLine (init ++ [x])).length = init.count ',' + 1 := by
  obtain ⟨hfree, _, hflat⟩ := splitLine_spec (init ++ [x]).length (init ++ [x]) rfl (by simp)
  have hcount := count_flatten_map_comma (splitLine (init ++ [x])) hfree
  rw [hflat, List.getLast?_concat] at hcount
  rw [← hcount]
  by_cases hx : x = ','
  · subst hx
    rw [if_pos rfl, List.count_append]
    rfl
  · rw [if_neg (fun h => hx (Option.some.inj h)), List.count_append, List.count_append]
    have h0 : List.count ',' [x] = 0 := by
      rw [List.count_eq_zero, List.mem_singleton]
      exact fun h => hx h.symm
    rw [h0]
    rfl

/-- C18. The loader's split of a line that is not blank is the standard split on every comma,
except that for a line ending with a comma the final empty field is dropped; so a line is
accepted if and only if it has a comma that is not its last character: "CSCI100," is
malformed and "CSCI100,Intro," has no prerequisite. -/
theorem C18_split_drops_trailing_empty (line : Str) :
    (line ≠ [] → splitLine line
      = if line.getLast? = some ',' then (line.splitOn ',').dropLast else line.splitOn ',') ∧
    (accepted line = true ↔ ',' ∈ line.dropLast) ∧
    accepted "CSCI100,".toList = false ∧
    splitLine "CSCI100,Intro,".toList = ["CSCI100".toList, "Intro".toList] ∧
    prerequisiteFields "CSCI100,Intro,".toList = [] := by
  refine ⟨fun hne => ?_, ?_, by decide, by decide, by decide⟩
  · obtain ⟨hfree, hnil, hflat⟩ := splitLine_spec line.length line rfl hne
    rw [flatten_map_append_sep _ _ hnil] at hflat
    by_cases hlast : line.getLast? = some ','
    · rw [if_pos hlast] at hflat ⊢
      rw [← intercalate_append_empty _ _ hnil] at hflat
      have hfree2 : ∀ l ∈ splitLine line ++ [[]], ',' ∉ l := by
        intro l hl
        rcases List.mem_append.1 hl with h | h
        · exact hfree l h
        · rw [List.mem_singleton] at h
          subst h
          exact List.not_mem_nil _
      have hs := List.splitOn_intercalate (splitLine line ++ [[]]) ',' hfree2 (by simp)
      rw [hflat] at hs
      rw [hs, List.dropLast_concat]
    · rw [if_neg hlast] at hflat ⊢
      have hj := List.append_cancel_right hflat
      have hs := List.splitOn_intercalate (splitLine line) ',' hfree hnil
      rw [hj] at hs
      exact hs.symm
  · rcases List.eq_nil_or_concat line with hnil | ⟨init, x, hcat⟩
    · subst hnil
      constructor
      · intro h; exact absurd h (by decide)
      · intro h; cases h
    · rw [List.concat_eq_append] at hcat
      subst hcat
      have hlen := splitLine_length init x
      unfold accepted
      rw [List.dropLast_concat]
      simp only [Bool.and_eq_true, decide_eq_true_eq, hlen]
      constructor
      · intro h
        have hpos : 0 < init.count ',' := by omega
        exact List.count_pos_iff.1 hpos
      · intro h
        have hpos : 0 < init.count ',' := List.count_pos_iff.2 h
        exact ⟨by simp, by omega⟩

/-- Witness of C18: a line ending with a comma, against the standard split. -/
theorem C18_split_drops_trailing_empty_witness :
    "CSCI100,Intro,".toList ≠ [] ∧
    splitLine "CSCI100,Intro,".toList
      = if ("CSCI100,Intro,".toList).getLast? = some ','
        then (("CSCI100,Intro,".toList).splitOn ',').dropLast
        else ("CSCI100,Intro,".toList).splitOn ',' :=
  ⟨by decide, (C18_split_drops_trailing_empty "CSCI100,Intro,".toList).1 (by decide)⟩

/-- C19. Every entry of the catalog `loadCourses` returns stores a record whose number is the
key it is stored under, so the detail view of a key writes that key as the course number. -/
theorem C19_number_is_key (fileName : Str) (lines : List Str) :
    ∀ e ∈ (loadCourses fileName (some lines)).courses.entries,
      e.2.number = e.1 ∧
      printCourseDetails (loadCourses fileName (some lines)).courses e.1
        = "\nCourse Number: ".toList ++ e.1 ++ ['\n'] ++
          "Course Name: ".toList ++ e.2.name ++ ['\n'] ++
          (if e.2.prerequisites ≠ [] then
            "Prerequisites:\n".toList ++ (e.2.prerequisites.map
              (fun prerequisite => " - ".toList ++ prerequisite ++ ['\n'])).flatten
          else "No prerequisites.\n".toList) := by
  intro e he
  have hfind := Catalog.find_of_mem _ e he
  have hnum : e.2.number = e.1 := by
    have hfind2 := hfind
    change (lines.foldl readLine ⟨Catalog.empty, []⟩).courses.find e.1 = some e.2 at hfind2
    have hm : definitionsOf lines e.1 ≠ [] ∨ isPrerequisiteIn lines e.1 := by
      by_contra hm
      rw [(find_foldl_readLine lines e.1).2 hm] at hfind2
      cases hfind2
    rw [(find_foldl_readLine lines e.1).1 hm] at hfind2
    rw [← Option.some.inj hfind2]
  refine ⟨hnum, ?_⟩
  unfold printCourseDetails
  rw [hfind]
  simp only [hnum]

/-- Witness of C19: the placeholder of the specification's example. -/
theorem C19_number_is_key_witness :
    (⟨"CSCI101".toList, [], []⟩ : Course).number = "CSCI101".toList ∧
    printCourseDetails
        (loadCourses "f.csv".toList (some ["CSCI100,Intro,CSCI101".toList])).courses
        "CSCI101".toList
      = "\nCourse Number: ".toList ++ "CSCI101".toList ++ ['\n'] ++
        "Course Name: ".toList ++ [] ++ ['\n'] ++
        (if ([] : List Str) ≠ [] then
          "Prerequisites:\n".toList ++ (([] : List Str).map
            (fun prerequisite => " - ".toList ++ prerequisite ++ ['\n'])).flatten
        else "No prerequisites.\n".toList) :=
  C19_number_is_key "f.csv".toList ["CSCI100,Intro,CSCI101".toList]
    ("CSCI101".toList, ⟨"CSCI101".toList, [], []⟩) (by decide)

end ProjectTwo
